import Mathlib

/-!
Verification of the wiggle shim generator (`crates/wiggle/generate/src/funcs.rs`).

`define_func` emits, for each witx interface function, a Rust shim that
marshals the flat core-ABI arguments into interface-typed values, invokes the
host trait handler, writes extra results back through guest output pointers,
and encodes success or failure into the ABI return value.  The development
below is a shallow embedding of the *call-time semantics of the emitted shim*:
each Lean definition mirrors the token stream that `define_func`,
`marshal_arg` and `marshal_result` splice into the generated function, with
the external collaborators (guest memory bounds checks, the host handler, the
two error-conversion capabilities of the context type) as explicit parameters.
-/

namespace Wiggle

/-- The witx builtin types matched in `marshal_arg` (`witx::BuiltinType`). -/
inductive BuiltinTy
  | u8 | u16 | char8 | s8 | s16
  | u32 | s32 | u64 | s64 | usize
  | f32 | f64
  | str
  deriving DecidableEq, Repr

/-- The type shapes dispatched on by `marshal_arg` / `marshal_result`
(`witx::Type`).  `enumTy n` carries the number of valid discriminants,
`flagsTy b` the number of valid flag bits and `intTy b` the number of valid
values of the bounded-int newtype; those bounds parameterize the `TryFrom`
impls that are generated by the (external) type-codec generator.  `structTy` /
`unionTy` carry the byte size of the guest-memory representation, which the
(external) layout computation determines. -/
inductive Ty
  | builtin (b : BuiltinTy)
  | enumTy (n : Nat)
  | flagsTy (bits : Nat)
  | intTy (bound : Nat)
  | pointer
  | constPointer
  | structTy (sz : Nat)
  | unionTy (sz : Nat)
  | array
  | handle
  deriving DecidableEq, Repr

/-- A parameter or result of an interface function
(`witx::InterfaceFuncParam`): a name and a type reference. -/
structure Param where
  name : String
  ty : Ty
  deriving DecidableEq, Repr

/-- An interface function (`witx::InterfaceFunc`): name, ordered parameters,
ordered results (the first result, when present, is the declared error type)
and the noreturn flag. -/
structure Func where
  name : String
  params : List Param
  results : List Param
  noreturn : Bool
  deriving DecidableEq, Repr

/-- The declared error type of a function: `define_func` takes it from
`coretype.ret`, which is the first result (passed by value). -/
def Func.errType (f : Func) : Option Ty :=
  f.results.head?.map Param.ty

/-- The results beyond the first: returned by the handler and written back
through guest output pointers (`func.results.iter().skip(1)`). -/
def Func.extraResults (f : Func) : List Param :=
  f.results.drop 1

/-- Interpret a raw ABI word (a bit pattern) as the Rust `u32` it denotes
(`as u32`). -/
def toU32 (w : Nat) : Nat := w % 2 ^ 32

/-- Interpret a raw ABI word (a bit pattern) as the Rust `i32` it denotes:
the wire atom of every 32-bit-or-narrower witx type. -/
def toI32 (w : Nat) : Int :=
  if w % 2 ^ 32 < 2 ^ 31 then ((w % 2 ^ 32 : Nat) : Int)
  else ((w % 2 ^ 32 : Nat) : Int) - 2 ^ 32

/-- Interpret a raw ABI word as the Rust `u64` it denotes. -/
def toU64 (w : Nat) : Nat := w % 2 ^ 64

/-- Interpret a raw ABI word as the Rust `i64` it denotes. -/
def toI64 (w : Nat) : Int :=
  if w % 2 ^ 64 < 2 ^ 63 then ((w % 2 ^ 64 : Nat) : Int)
  else ((w % 2 ^ 64 : Nat) : Int) - 2 ^ 64

/-- An interface-typed value as the marshaled shim sees it.  Scalar-like
values (integers, enums, flags, handles, float bit patterns) are `intv`;
`ptrv` is a `GuestPtr<T>` (an offset, no I/O performed); `slicev` is a
`GuestPtr<str>` or `GuestPtr<[T]>` (offset and length, lazily constructed);
`structv o` is the value a struct/union read at offset `o` produced (its
decoded contents are abstracted — the codec is external). -/
inductive Value
  | intv (i : Int)
  | ptrv (offset : Nat)
  | slicev (offset len : Nat)
  | structv (offset : Nat)
  deriving DecidableEq, Repr

/-- The validation errors the shim can meet (`wiggle::GuestError`, reduced
to the cases the generated code produces): a failed checked conversion
(`TryFrom` on a narrow integer, enum, flags or bounded int), a failed
bounds-checked guest-memory access, and the `InFunc` wrapper that
`error_handling` adds, carrying the function name and the location tag. -/
inductive GuestErr
  | tryFromError
  | ptrOutOfBounds
  | inFunc (funcname : String) (location : String) (err : GuestErr)
  deriving DecidableEq, Repr

/-- Guest linear memory: a byte size (bounds checks compare against it) and a
typed store of the cells the shim has written (reads of struct/union
arguments are abstracted to their offset, so only writes touch `data`). -/
structure Mem where
  size : Nat
  data : Nat → Option Value

/-- The raw ABI words one parameter consumes: the first word is the single
slot of every one-slot shape; the second is the length slot, read only by the
two-slot shapes (string and array). -/
abbrev RawArg := Nat × Nat

/-- Byte size of a type's guest-memory representation, used by the
bounds check of `GuestPtr::read` / `GuestPtr::write`.  Sizes for the scalar
shapes follow the witx layout rules; struct/union sizes are carried by the
shape (the layout computation is external to `funcs.rs`). -/
def Ty.abiSize : Ty → Nat
  | .builtin .u8 | .builtin .s8 | .builtin .char8 => 1
  | .builtin .u16 | .builtin .s16 => 2
  | .builtin .u32 | .builtin .s32 | .builtin .usize | .builtin .f32 => 4
  | .builtin .u64 | .builtin .s64 | .builtin .f64 => 8
  | .builtin .str => 8
  | .enumTy _ => 4
  | .flagsTy _ => 4
  | .intTy _ => 4
  | .pointer | .constPointer => 4
  | .structTy sz => sz
  | .unionTy sz => sz
  | .array => 8
  | .handle => 4

/-- Semantics of `GuestPtr::<T>::new(memory, off).read()`: succeeds iff the
`abiSize`-byte region at `off` lies inside guest memory; the decoded value is
abstracted as `structv off` (the read codec is generated externally). -/
def Mem.readAt (m : Mem) (ty : Ty) (off : Nat) : Except GuestErr Value :=
  if off + ty.abiSize ≤ m.size then .ok (.structv off) else .error .ptrOutOfBounds

/-- Semantics of `GuestPtr::<T>::new(memory, off).write(v)`: succeeds iff
the `abiSize`-byte region at `off` lies inside guest memory, recording the
written value at `off`. -/
def Mem.writeAt (m : Mem) (ty : Ty) (off : Nat) (v : Value) : Except GuestErr Mem :=
  if off + ty.abiSize ≤ m.size then
    .ok { m with data := fun o => if o = off then some v else m.data o }
  else .error .ptrOutOfBounds

/-- Call-time semantics of one `marshal_arg` binding: given guest memory, the
parameter's type and its raw ABI word(s), produce the interface-typed value
or the validation error that `error_handling` will receive.  Each branch
mirrors the corresponding arm of the `match &*tref.type_()` in `marshal_arg`:

* enum / flags / bounded int: `try_into` on the raw `i32` word, checked
  against the valid range (the `TryFrom` impls are generated by the external
  type generator; modelled from the spec as the range check);
* `U8` / `U16` / `Char8`: `try_into` from the raw `i32` into the narrow
  unsigned type;
* `S8` / `S16`: `(raw as i32).try_into()` into the narrow signed type;
* `U32`/`S32`/`U64`/`S64`/`USize`/`F32`/`F64`: a plain `as` reinterpretation,
  infallible (floats are kept as bit patterns);
* `String` / `Array`: `GuestPtr::new(memory, (ptr as u32, len as u32))` —
  lazily constructed, no guest memory touched, infallible;
* `Pointer` / `ConstPointer`: `GuestPtr::new(memory, raw as u32)` —
  infallible, not dereferenced;
* `Struct` / `Union`: `GuestPtr::new(memory, raw as u32).read()` — an eager
  bounds-checked read that can fail;
* `Handle`: `Handle::from(raw)` — infallible. -/
def marshal_arg (m : Mem) (ty : Ty) (raw : RawArg) : Except GuestErr Value :=
  match ty with
  | .enumTy n =>
      if 0 ≤ toI32 raw.1 ∧ toI32 raw.1 < (n : Int) then .ok (.intv (toI32 raw.1))
      else .error .tryFromError
  | .flagsTy bits =>
      if toU32 raw.1 < 2 ^ bits then .ok (.intv (toU32 raw.1 : Int))
      else .error .tryFromError
  | .intTy bound =>
      if 0 ≤ toI32 raw.1 ∧ toI32 raw.1 < (bound : Int) then .ok (.intv (toI32 raw.1))
      else .error .tryFromError
  | .builtin .u8 =>
      if 0 ≤ toI32 raw.1 ∧ toI32 raw.1 < 2 ^ 8 then .ok (.intv (toI32 raw.1))
      else .error .tryFromError
  | .builtin .u16 =>
      if 0 ≤ toI32 raw.1 ∧ toI32 raw.1 < 2 ^ 16 then .ok (.intv (toI32 raw.1))
      else .error .tryFromError
  | .builtin .char8 =>
      if 0 ≤ toI32 raw.1 ∧ toI32 raw.1 < 2 ^ 8 then .ok (.intv (toI32 raw.1))
      else .error .tryFromError
  | .builtin .s8 =>
      if -2 ^ 7 ≤ toI32 raw.1 ∧ toI32 raw.1 < 2 ^ 7 then .ok (.intv (toI32 raw.1))
      else .error .tryFromError
  | .builtin .s16 =>
      if -2 ^ 15 ≤ toI32 raw.1 ∧ toI32 raw.1 < 2 ^ 15 then .ok (.intv (toI32 raw.1))
      else .error .tryFromError
  | .builtin .u32 => .ok (.intv (toU32 raw.1 : Int))
  | .builtin .s32 => .ok (.intv (toI32 raw.1))
  | .builtin .u64 => .ok (.intv (toU64 raw.1 : Int))
  | .builtin .s64 => .ok (.intv (toI64 raw.1))
  | .builtin .usize => .ok (.intv (toU32 raw.1 : Int))
  | .builtin .f32 => .ok (.intv (toU32 raw.1 : Int))
  | .builtin .f64 => .ok (.intv (toU64 raw.1 : Int))
  | .builtin .str => .ok (.slicev (toU32 raw.1) (toU32 raw.2))
  | .pointer => .ok (.ptrv (toU32 raw.1))
  | .constPointer => .ok (.ptrv (toU32 raw.1))
  | .structTy sz => m.readAt (.structTy sz) (toU32 raw.1)
  | .unionTy sz => m.readAt (.unionTy sz) (toU32 raw.1)
  | .array => .ok (.slicev (toU32 raw.1) (toU32 raw.2))
  | .handle => .ok (.intv (toU32 raw.1 : Int))

/-- The `#(#marshal_args)*` sequence of the generated shim: marshal each
parameter in declaration order; the first failure aborts (its
`error_handling` is tagged with that parameter's name, and no later parameter
is marshaled). -/
def marshal_args (m : Mem) : List (Param × RawArg) → Except (String × GuestErr) (List Value)
  | [] => .ok []
  | (p, raw) :: rest =>
      match marshal_arg m p.ty raw with
      | .error e => .error (p.name, e)
      | .ok v =>
          match marshal_args m rest with
          | .error le => .error le
          | .ok vs => .ok (v :: vs)

/-- Observable instrumentation events of one shim call, in emission order:
`argsTrace` is the single `tracing::event!` over all marshaled arguments
(`log_marshalled_args`); `preAlloc r` is the pre-call construction of the
output `GuestPtr` for extra result `r` (`marshal_rets_pre`); `invoke` is the
call of the host trait handler; `retTrace` is the `tracing::event!` over the
extra return values (`trait_rets`); `retErrTrace` is the `tracing::event!`
inside `ret_err`; `postWrite r` is the successful write of extra result `r`
through its output pointer (`marshal_rets_post`); `successTrace` is the
`tracing::event!` of the canonical success value. -/
inductive Event
  | argsTrace
  | preAlloc (name : String)
  | invoke
  | retTrace
  | retErrTrace
  | successTrace
  | postWrite (name : String)
  deriving DecidableEq, Repr

/-- How one shim call ends.  The generated shim returns
`Result<#abi_ret, wiggle::Trap>`: `ok (some w)` is `Ok(w)` for a function
whose ABI return is the declared error type's atom, `ok none` is `Ok(())` for
a function with no declared error type, `trapped t` is `Err(t)`, and
`panicked` is the `panic!("error: {:?}", e)` that `error_handling` emits when
a marshal step fails and there is no declared error type to carry the
failure. -/
inductive Outcome
  | ok (ret : Option Int)
  | trapped (t : Int)
  | panicked
  deriving DecidableEq, Repr

/-- The capabilities the call context supplies to the generated shim:

* `handler` — the host trait method for a non-noreturn function: the extra
  results on success, or a domain error;
* `noretHandler` — the host trait method for a noreturn function, whose
  return value is a `wiggle::Trap`;
* `userConv` — the registered `UserErrorConversion` method for the declared
  error type, when one is registered (`errxform.for_abi_error`); it may
  itself fail with a trap;
* `guestConv` — the `GuestErrorConversion` method for the declared error
  type (always available);
* `successVal` — `GuestErrorType::success()` for the declared error type;
* `encode` — `#abi_ret::from` on the declared error type, the conversion of
  an error-type value into the ABI return word. -/
structure CallCtx where
  handler : List Value → Except Int (List Value)
  noretHandler : List Value → Int
  userConv : Option (Int → Except Int Int)
  guestConv : GuestErr → Int
  successVal : Int
  encode : Int → Int

/-- The `#(#marshal_rets_post)*` sequence: write each extra result's value
through its output pointer in declaration order.  Returns the `postWrite`
events of the successful writes, the resulting memory (earlier successful
writes persist even when a later one fails), and the first failure together
with its location tag `"<name>:result_ptr_mut"`. -/
def marshal_rets_post (m : Mem) :
    List (Param × Nat × Value) → List Event × Mem × Option (String × GuestErr)
  | [] => ([], m, none)
  | (r, off, v) :: rest =>
      match m.writeAt r.ty off v with
      | .error e => ([], m, some (r.name ++ ":result_ptr_mut", e))
      | .ok m1 =>
          let (evs, m2, werr) := marshal_rets_post m1 rest
          (.postWrite r.name :: evs, m2, werr)

/-- The result of one call of the generated shim: its return value, the
instrumentation events it emitted, and the final guest memory. -/
structure ShimResult where
  outcome : Outcome
  trace : List Event
  mem : Mem

/-- Semantics of `log_marshalled_args`: the argument-trace event is
generated only when the parameter list is non-empty
(`if func.params.len() > 0`). -/
def argsTraceEvents (f : Func) : List Event :=
  if f.params.length > 0 then [.argsTrace] else []

/-- Semantics of `error_handling(location)`: wrap the failure in
`GuestError::InFunc { funcname, location }`; with a declared error type,
convert it through `GuestErrorConversion` and return `Ok(abi_ret::from(err))`;
with none, `panic!`. -/
def errorHandlingOutcome (ctx : CallCtx) (f : Func) (loc : String) (e : GuestErr) : Outcome :=
  match f.errType with
  | some _ => .ok (some (ctx.encode (ctx.guestConv (.inFunc f.name loc e))))
  | none => .panicked

/-- Call-time semantics of the shim emitted by `define_func`, mirroring the
emitted statement sequence:

1. marshal the arguments in declaration order; the first failure runs
   `error_handling` tagged with that parameter's name and the call ends;
2. a noreturn function then emits the argument trace, invokes the handler
   and returns its value as `Err(trap)`;
3. otherwise construct the output pointer of every extra result from its raw
   slot (`marshal_rets_pre`, no validation), emit the argument trace, and
   invoke the handler;
4. on handler success, emit the extra-return-value trace (when there are
   extra results), run the post-call writes in declaration order (a failure
   runs `error_handling` tagged `"<name>:result_ptr_mut"`), and finally
   encode the canonical success value (`Ok(abi_ret::from(success))`, or
   `Ok(())` with no declared error type);
5. on handler failure, `ret_err` converts the domain error through the
   registered `UserErrorConversion` when one exists (`Ok(e)` otherwise),
   emits its trace event, and returns `Ok(abi_ret::from(e))` or propagates
   the conversion's trap; with no declared error type `ret_err` is `()` and
   the call falls through to the success encoding. -/
def shim_call (ctx : CallCtx) (f : Func) (m : Mem) (args : List RawArg)
    (retSlots : List Nat) : ShimResult :=
  match marshal_args m (f.params.zip args) with
  | .error (loc, e) =>
      { outcome := errorHandlingOutcome ctx f loc e, trace := [], mem := m }
  | .ok vals =>
      if f.noreturn then
        { outcome := .trapped (ctx.noretHandler vals),
          trace := argsTraceEvents f ++ [.invoke], mem := m }
      else
        let ptrs := (f.extraResults.zip retSlots).map (fun rs => (rs.1, toU32 rs.2))
        let preEvs := ptrs.map (fun ro => Event.preAlloc ro.1.name)
        let t1 := preEvs ++ argsTraceEvents f ++ [Event.invoke]
        match ctx.handler vals with
        | .error e =>
            match f.errType with
            | some _ =>
                let conv := match ctx.userConv with
                  | some c => c e
                  | none => .ok e
                match conv with
                | .ok ev =>
                    { outcome := .ok (some (ctx.encode ev)),
                      trace := t1 ++ [.retErrTrace], mem := m }
                | .error t =>
                    { outcome := .trapped t, trace := t1 ++ [.retErrTrace], mem := m }
            | none => { outcome := .ok none, trace := t1, mem := m }
        | .ok rvals =>
            let retEvs := if f.results.length ≥ 2 then [Event.retTrace] else []
            let triples := (ptrs.zip rvals).map (fun rv => (rv.1.1, rv.1.2, rv.2))
            let (wEvs, m1, werr) := marshal_rets_post m triples
            match werr with
            | some (loc, e) =>
                { outcome := errorHandlingOutcome ctx f loc e,
                  trace := t1 ++ retEvs ++ wEvs, mem := m1 }
            | none =>
                match f.errType with
                | some _ =>
                    { outcome := .ok (some (ctx.encode ctx.successVal)),
                      trace := t1 ++ retEvs ++ wEvs ++ [.successTrace], mem := m1 }
                | none => { outcome := .ok none, trace := t1 ++ retEvs ++ wEvs, mem := m1 }

/-- The writeback failure, if any, of the post-call phase of a run: the same
pipeline `shim_call` executes on the handler's success path, exposed so that
"every extra-result writeback succeeds" is expressible as a hypothesis. -/
def writebackErr (f : Func) (m : Mem) (retSlots : List Nat) (rvals : List Value) :
    Option (String × GuestErr) :=
  (marshal_rets_post m
    ((((f.extraResults.zip retSlots).map (fun rs => (rs.1, toU32 rs.2))).zip rvals).map
      (fun rv => (rv.1.1, rv.1.2, rv.2)))).2.2

/-- Spec-side classification of the narrow-integer parameter shapes: the
inclusive-exclusive range of interpreted wire values the checked conversion
accepts (unsigned 8/16-bit and single-byte char, signed 8/16-bit, enum
discriminants, flags bit sets, bounded-int newtypes). -/
def narrowBounds : Ty → Option (Int × Int)
  | .builtin .u8 => some (0, 2 ^ 8)
  | .builtin .u16 => some (0, 2 ^ 16)
  | .builtin .char8 => some (0, 2 ^ 8)
  | .builtin .s8 => some (-2 ^ 7, 2 ^ 7)
  | .builtin .s16 => some (-2 ^ 15, 2 ^ 15)
  | .enumTy n => some (0, (n : Int))
  | .flagsTy b => some (0, 2 ^ b)
  | .intTy b => some (0, (b : Int))
  | _ => none

/-- The interpretation of a raw ABI word a narrow-integer conversion checks:
flags are checked against the word's unsigned reading; every other narrow
shape first reads the word as a signed 32-bit value (for `S8`/`S16` this is
the explicit `(raw as i32)` step of `marshal_arg`). -/
def narrowInterp : Ty → Nat → Int
  | .flagsTy _, w => (toU32 w : Int)
  | _, w => toI32 w

/-- The shapes whose argument marshaling can fail: checked narrowing
conversions (enum, flags, bounded int, narrow integers) and the eager
bounds-checked struct/union reads.  String, array, pointer, const-pointer,
handle and the wide scalars never fail. -/
def fallibleShape : Ty → Bool
  | .enumTy _ => true
  | .flagsTy _ => true
  | .intTy _ => true
  | .builtin .u8 => true
  | .builtin .u16 => true
  | .builtin .char8 => true
  | .builtin .s8 => true
  | .builtin .s16 => true
  | .structTy _ => true
  | .unionTy _ => true
  | _ => false

/-! Concrete instances used to exercise the theorems on closed inputs. -/

/-- An empty guest memory. -/
def m0 : Mem := { size := 0, data := fun _ => none }

/-- A guest memory of 8 bytes with nothing written yet. -/
def m8 : Mem := { size := 8, data := fun _ => none }

/-- A context whose handler succeeds with no extra results. -/
def ctxOk : CallCtx :=
  { handler := fun _ => .ok []
    noretHandler := fun _ => 99
    userConv := none
    guestConv := fun _ => 1
    successVal := 0
    encode := fun i => i }

/-- A context whose handler returns the two extra results `1` and `2`. -/
def ctxTwo : CallCtx :=
  { handler := fun _ => .ok [.intv 1, .intv 2]
    noretHandler := fun _ => 99
    userConv := none
    guestConv := fun _ => 21
    successVal := 0
    encode := fun i => i }

/-- A context whose handler fails with domain error `5` and whose registered
user-error conversion itself fails with trap `7`. -/
def ctxConvTrap : CallCtx :=
  { handler := fun _ => .error 5
    noretHandler := fun _ => 99
    userConv := some (fun _ => .error 7)
    guestConv := fun _ => 1
    successVal := 0
    encode := fun i => i }

/-- A context whose handler fails with domain error `5` and with no
registered user-error conversion. -/
def ctxErrId : CallCtx :=
  { handler := fun _ => .error 5
    noretHandler := fun _ => 99
    userConv := none
    guestConv := fun _ => 1
    successVal := 0
    encode := fun i => i }

/-- A function with one `u32` parameter, an error result, and no extra
results. -/
def fOneParam : Func :=
  { name := "get"
    params := [{ name := "idx", ty := .builtin .u32 }]
    results := [{ name := "err", ty := .enumTy 3 }]
    noreturn := false }

/-- A function with no parameters, an error result, and no extra results. -/
def fNoParams : Func :=
  { name := "nop"
    params := []
    results := [{ name := "err", ty := .enumTy 3 }]
    noreturn := false }

/-- A noreturn function with one narrow parameter and no results. -/
def fNoReturn : Func :=
  { name := "exit"
    params := [{ name := "code", ty := .builtin .u8 }]
    results := []
    noreturn := true }

/-- A function with no declared error type (no results) and one narrow
parameter. -/
def fNoErr : Func :=
  { name := "poke"
    params := [{ name := "v", ty := .builtin .u8 }]
    results := []
    noreturn := false }

/-- A function with one narrow (`u8`) parameter and an error result. -/
def fNarrow : Func :=
  { name := "seti"
    params := [{ name := "x", ty := .builtin .u8 }]
    results := [{ name := "err", ty := .enumTy 3 }]
    noreturn := false }

/-- A function with no parameters and no results at all. -/
def fUnit : Func :=
  { name := "ping"
    params := []
    results := []
    noreturn := false }

/-- A function with an error result and two extra `u32` results `a` and `b`. -/
def fTwoResults : Func :=
  { name := "pair"
    params := []
    results := [{ name := "err", ty := .enumTy 3 },
                { name := "a", ty := .builtin .u32 },
                { name := "b", ty := .builtin .u32 }]
    noreturn := false }

/-! Helper lemmas about the post-call writeback pipeline. -/

/-- The events of the post-call phase are the successful writes: a prefix of
the declaration-ordered write list, all of them exactly when no write
failed. -/
theorem marshal_rets_post_shape (l : List (Param × Nat × Value)) :
    ∀ m : Mem, ∃ k, k ≤ l.length ∧
      (marshal_rets_post m l).1 = (l.take k).map (fun t => Event.postWrite t.1.name) ∧
      ((marshal_rets_post m l).2.2 = none → k = l.length) := by
  induction l with
  | nil =>
      intro m
      exact ⟨0, by simp [marshal_rets_post]⟩
  | cons hd tl ih =>
      intro m
      obtain ⟨r, off, v⟩ := hd
      cases hw : m.writeAt r.ty off v with
      | error e =>
          refine ⟨0, by simp, ?_, ?_⟩ <;> simp [marshal_rets_post, hw]
      | ok m1 =>
          obtain ⟨k, hk, hevs, himp⟩ := ih m1
          rcases hrec : marshal_rets_post m1 tl with ⟨evs, m2, werr⟩
          rw [hrec] at hevs himp
          refine ⟨k + 1, by simpa using hk, ?_, ?_⟩
          · simp [marshal_rets_post, hw, hrec, hevs]
          · intro hnone
            simp [marshal_rets_post, hw, hrec] at hnone
            simp [himp hnone]

/-- Every event the post-call phase emits is a `postWrite`. -/
theorem marshal_rets_post_all_postWrite (l : List (Param × Nat × Value)) (m : Mem) :
    ∀ ev ∈ (marshal_rets_post m l).1, ∃ nm, ev = Event.postWrite nm := by
  obtain ⟨k, _, hevs, _⟩ := marshal_rets_post_shape l m
  intro ev hev
  rw [hevs] at hev
  rw [List.mem_map] at hev
  obtain ⟨t, _, ht⟩ := hev
  exact ⟨t.1.name, ht.symm⟩

/-- The pre-call pointer constructions are tagged with the extra results'
names, in declaration order. -/
theorem zip_pre_events (extra : List Param) :
    ∀ slots : List Nat, extra.length ≤ slots.length →
      (((extra.zip slots).map (fun rs => (rs.1, toU32 rs.2))).map
          (fun ro => Event.preAlloc ro.1.name))
        = extra.map (fun r => Event.preAlloc r.name) := by
  induction extra with
  | nil => intro slots _; simp
  | cons hd tl ih =>
      intro slots h1
      cases slots with
      | nil => simp at h1
      | cons s ss => simp [ih ss (by simpa using h1)]

/-- The post-call write list is tagged with the extra results' names, in
declaration order. -/
theorem zip_triples_map_name (extra : List Param) :
    ∀ (slots : List Nat) (rvals : List Value),
      extra.length ≤ slots.length → extra.length ≤ rvals.length →
      ((((extra.zip slots).map (fun rs => (rs.1, toU32 rs.2))).zip rvals).map
          (fun rv => (rv.1.1, rv.1.2, rv.2))).map (fun t => Event.postWrite t.1.name)
        = extra.map (fun r => Event.postWrite r.name) := by
  induction extra with
  | nil => intro slots rvals _ _; simp
  | cons hd tl ih =>
      intro slots rvals h1 h2
      cases slots with
      | nil => simp at h1
      | cons s ss =>
          cases rvals with
          | nil => simp at h2
          | cons v vs => simp [ih ss vs (by simpa using h1) (by simpa using h2)]

/-- The post-call write list has one entry per extra result. -/
theorem zip_triples_length (extra : List Param) (slots : List Nat) (rvals : List Value)
    (h1 : extra.length ≤ slots.length) (h2 : extra.length ≤ rvals.length) :
    ((((extra.zip slots).map (fun rs => (rs.1, toU32 rs.2))).zip rvals).map
        (fun rv => (rv.1.1, rv.1.2, rv.2))).length = extra.length := by
  have h := congrArg List.length (zip_triples_map_name extra slots rvals h1 h2)
  simpa using h

/-- **C1.** For every generated shim whose function declares an error type,
if the handler returns success and every extra-result writeback succeeds,
the shim's ABI return value is exactly the declared error type's canonical
success value (`GuestErrorType::success()` converted by `#abi_ret::from`);
if the function declares no error type, the shim returns the empty value. -/
theorem success_path_abi_return
    (ctx : CallCtx) (f : Func) (m : Mem) (args : List RawArg) (retSlots : List Nat)
    (vals rvals : List Value)
    (hnr : f.noreturn = false)
    (hm : marshal_args m (f.params.zip args) = .ok vals)
    (hh : ctx.handler vals = .ok rvals)
    (hw : writebackErr f m retSlots rvals = none) :
    (shim_call ctx f m args retSlots).outcome =
      match f.errType with
      | some _ => Outcome.ok (some (ctx.encode ctx.successVal))
      | none => Outcome.ok none := by
  unfold writebackErr at hw
  unfold shim_call
  rw [hm]
  simp only [hnr, Bool.false_eq_true, if_false]
  rw [hh]
  rcases hrec : marshal_rets_post m
      ((((f.extraResults.zip retSlots).map (fun rs => (rs.1, toU32 rs.2))).zip rvals).map
        (fun rv => (rv.1.1, rv.1.2, rv.2))) with ⟨evs, m2, werr⟩
  rw [hrec] at hw
  simp only at hw
  simp only [hrec, hw]
  cases hET : f.errType <;> simp

/-- Witness for C1: a concrete function with a declared error type returns
the encoded canonical success value, and a concrete function with no
declared error type returns the empty value. -/
theorem success_path_abi_return_witness :
    (shim_call ctxOk fNoParams m0 [] []).outcome = Outcome.ok (some 0) ∧
    (shim_call ctxOk fUnit m0 [] []).outcome = Outcome.ok none := by
  constructor
  · exact success_path_abi_return ctxOk fNoParams m0 [] [] [] [] rfl rfl rfl rfl
  · exact success_path_abi_return ctxOk fUnit m0 [] [] [] [] rfl rfl rfl rfl

/-- Every marshal failure of a function with a declared error type is
encoded through `error_handling`: wrapped in `GuestError::InFunc` with the
function name and the failing location, converted by the
`GuestErrorConversion` capability, and returned as `Ok` of its ABI
encoding. -/
theorem marshal_failure_routed
    (ctx : CallCtx) (f : Func) (m : Mem) (args : List RawArg) (retSlots : List Nat)
    (loc : String) (e : GuestErr) (t : Ty)
    (het : f.errType = some t)
    (hm : marshal_args m (f.params.zip args) = .error (loc, e)) :
    (shim_call ctx f m args retSlots).outcome =
      Outcome.ok (some (ctx.encode (ctx.guestConv (.inFunc f.name loc e)))) := by
  unfold shim_call
  rw [hm]
  simp [errorHandlingOutcome, het]

/-- **C2.** For every `noreturn` function (whose result list is empty, per
the data-model invariant), every call of the generated shim resolves to a
trap — either the handler's return value surfaced as `Err(trap)` after
successful argument marshaling, or the fatal abort of a marshal failure —
and never to a non-trap `Ok` return, for all argument values. -/
theorem noreturn_always_traps
    (ctx : CallCtx) (f : Func) (m : Mem) (args : List RawArg) (retSlots : List Nat)
    (hnr : f.noreturn = true) (hres : f.results = []) :
    (∀ r, (shim_call ctx f m args retSlots).outcome ≠ Outcome.ok r) ∧
    (∀ vals, marshal_args m (f.params.zip args) = .ok vals →
      (shim_call ctx f m args retSlots).outcome = .trapped (ctx.noretHandler vals)) := by
  have hET : f.errType = none := by simp [Func.errType, hres]
  constructor
  · intro r
    unfold shim_call
    cases hmr : marshal_args m (f.params.zip args) with
    | error le =>
        obtain ⟨loc, e⟩ := le
        simp [errorHandlingOutcome, hET]
    | ok vals => simp [hnr]
  · intro vals hm
    unfold shim_call
    rw [hm]
    simp [hnr]

/-- Witness for C2: a concrete noreturn function traps with the handler's
return value on an in-range argument, and returns no `Ok` on any of two
sample calls. -/
theorem noreturn_always_traps_witness :
    (shim_call ctxOk fNoReturn m0 [(7, 0)] []).outcome = Outcome.trapped 99 ∧
    (shim_call ctxOk fNoReturn m0 [(400, 0)] []).outcome ≠ Outcome.ok (some 0) := by
  constructor
  · exact (noreturn_always_traps ctxOk fNoReturn m0 [(7, 0)] [] rfl rfl).2
      [.intv 7] rfl
  · exact (noreturn_always_traps ctxOk fNoReturn m0 [(400, 0)] [] rfl rfl).1 (some 0)

/-- **C7.** For every function with no declared error type (an empty result
list), an argument-marshal failure in the generated shim is unrecoverable:
no declared-error encoding is produced — the shim aborts through
`error_handling`'s fatal `panic!` with an empty event trace — and such a
function has no extra results, so no writeback can occur at all. -/
theorem no_error_type_marshal_failure_is_fatal
    (ctx : CallCtx) (f : Func) (m : Mem) (args : List RawArg) (retSlots : List Nat)
    (loc : String) (e : GuestErr)
    (hres : f.results = [])
    (hm : marshal_args m (f.params.zip args) = .error (loc, e)) :
    (shim_call ctx f m args retSlots).outcome = Outcome.panicked ∧
    (shim_call ctx f m args retSlots).trace = [] ∧
    f.extraResults = [] := by
  have hET : f.errType = none := by simp [Func.errType, hres]
  have h1 : (shim_call ctx f m args retSlots).outcome = Outcome.panicked := by
    unfold shim_call
    rw [hm]
    simp [errorHandlingOutcome, hET]
  have h2 : (shim_call ctx f m args retSlots).trace = [] := by
    unfold shim_call
    rw [hm]
  exact ⟨h1, h2, by simp [Func.extraResults, hres]⟩

/-- Witness for C7: a concrete function with no declared error type and an
out-of-range narrow argument aborts fatally with an empty trace. -/
theorem no_error_type_marshal_failure_is_fatal_witness :
    (shim_call ctxOk fNoErr m0 [(400, 0)] []).outcome = Outcome.panicked ∧
    (shim_call ctxOk fNoErr m0 [(400, 0)] []).trace = [] := by
  have h := no_error_type_marshal_failure_is_fatal ctxOk fNoErr m0 [(400, 0)] []
    "v" .tryFromError rfl rfl
  exact ⟨h.1, h.2.1⟩

/-- After successful marshaling a non-noreturn shim call's trace is the
pre-call pointer constructions, then the argument-trace site, then the
handler invocation, then a remainder made only of result-trace,
error-trace, success-trace and write events. -/
theorem shim_call_trace_shape
    (ctx : CallCtx) (f : Func) (m : Mem) (args : List RawArg) (retSlots : List Nat)
    (vals : List Value)
    (hnr : f.noreturn = false)
    (hm : marshal_args m (f.params.zip args) = .ok vals) :
    ∃ mid : List Event,
      (shim_call ctx f m args retSlots).trace =
        ((f.extraResults.zip retSlots).map (fun rs => (rs.1, toU32 rs.2))).map
            (fun ro => Event.preAlloc ro.1.name)
          ++ argsTraceEvents f ++ Event.invoke :: mid ∧
      ∀ ev ∈ mid, ev = Event.retTrace ∨ ev = Event.retErrTrace ∨
        ev = Event.successTrace ∨ ∃ nm, ev = Event.postWrite nm := by
  unfold shim_call
  rw [hm]
  simp only [hnr, Bool.false_eq_true, if_false]
  cases hh : ctx.handler vals with
  | error e =>
      cases hET : f.errType with
      | none => exact ⟨[], by simp, by simp⟩
      | some t =>
          cases hu : ctx.userConv with
          | none => exact ⟨[.retErrTrace], by simp, by simp⟩
          | some c =>
              cases hc : c e with
              | ok ev => exact ⟨[.retErrTrace], by simp [hc], by simp⟩
              | error t2 => exact ⟨[.retErrTrace], by simp [hc], by simp⟩
  | ok rvals =>
      rcases hrec : marshal_rets_post m
          ((((f.extraResults.zip retSlots).map (fun rs => (rs.1, toU32 rs.2))).zip rvals).map
            (fun rv => (rv.1.1, rv.1.2, rv.2))) with ⟨evs, m2, werr⟩
      have hpw := marshal_rets_post_all_postWrite
        ((((f.extraResults.zip retSlots).map (fun rs => (rs.1, toU32 rs.2))).zip rvals).map
          (fun rv => (rv.1.1, rv.1.2, rv.2))) m
      rw [hrec] at hpw
      simp only at hpw
      cases werr with
      | some le =>
          refine ⟨(if f.results.length ≥ 2 then [Event.retTrace] else []) ++ evs,
            by simp [hrec], ?_⟩
          intro ev hev
          rcases List.mem_append.mp hev with h | h
          · left
            revert h
            split <;> simp
          · exact Or.inr (Or.inr (Or.inr (hpw ev h)))
      | none =>
          cases hET : f.errType with
          | some t =>
              refine ⟨(if f.results.length ≥ 2 then [Event.retTrace] else []) ++ evs
                ++ [Event.successTrace], by simp [hrec], ?_⟩
              intro ev hev
              rcases List.mem_append.mp hev with h | h
              · rcases List.mem_append.mp h with h1 | h1
                · left
                  revert h1
                  split <;> simp
                · exact Or.inr (Or.inr (Or.inr (hpw ev h1)))
              · simp at h
                simp [h]
          | none =>
              refine ⟨(if f.results.length ≥ 2 then [Event.retTrace] else []) ++ evs,
                by simp [hrec], ?_⟩
              intro ev hev
              rcases List.mem_append.mp hev with h | h
              · left
                revert h
                split <;> simp
              · exact Or.inr (Or.inr (Or.inr (hpw ev h)))

/-- **C10.** For every function with zero declared parameters, the generated
shim emits no argument-trace event on any call, successful or not: the
emission site `log_marshalled_args` is generated only when the parameter
list is non-empty. -/
theorem zero_params_no_args_trace
    (ctx : CallCtx) (f : Func) (m : Mem) (args : List RawArg) (retSlots : List Nat)
    (hp : f.params = []) :
    Event.argsTrace ∉ (shim_call ctx f m args retSlots).trace := by
  have hm : marshal_args m (f.params.zip args) = .ok [] := by
    simp [hp, marshal_args]
  have hat : argsTraceEvents f = [] := by simp [argsTraceEvents, hp]
  by_cases hnr : f.noreturn
  · unfold shim_call
    rw [hm]
    simp [hnr, hat]
  · obtain ⟨mid, htr, hmid⟩ := shim_call_trace_shape ctx f m args retSlots []
      (by simpa using hnr) hm
    rw [htr, hat]
    intro hmem
    rcases List.mem_append.mp hmem with h | h
    · rcases List.mem_append.mp h with h1 | h1
      · rcases List.mem_map.mp h1 with ⟨x, _, hx⟩
        exact Event.noConfusion hx
      · simp at h1
    · rcases List.mem_cons.mp h with h2 | h2
      · exact Event.noConfusion h2
      · rcases hmid _ h2 with h3 | h3 | h3 | ⟨nm, h3⟩ <;> simp_all

/-- Witness for C10: two concrete calls of a zero-parameter function — one
whose handler succeeds, one whose handler fails — emit no argument-trace
event. -/
theorem zero_params_no_args_trace_witness :
    Event.argsTrace ∉ (shim_call ctxOk fNoParams m0 [] []).trace ∧
    Event.argsTrace ∉ (shim_call ctxErrId fNoParams m0 [] []).trace := by
  constructor
  · exact zero_params_no_args_trace ctxOk fNoParams m0 [] [] rfl
  · exact zero_params_no_args_trace ctxErrId fNoParams m0 [] [] rfl

/-- **C3.** For every narrow-integer parameter shape (unsigned 8/16-bit,
single-byte char, enum, flags, bounded-int newtype, signed 8/16-bit): a raw
ABI word whose interpreted value lies outside the shape's representable
range yields a validation error — which, per the last clause, is routed to
the declared error type, never silently truncated — and an in-range word
round-trips to exactly its interpreted value.  For the signed 8/16-bit
shapes `narrowInterp` is `toI32`, so the in/out-of-range clauses state
precisely the two-step `(raw as i32).try_into()` conversion. -/
theorem narrow_marshal_checked
    (ty : Ty) (lo hi : Int) (hb : narrowBounds ty = some (lo, hi))
    (w l : Nat) (m : Mem) :
    ((lo ≤ narrowInterp ty w ∧ narrowInterp ty w < hi) →
        marshal_arg m ty (w, l) = .ok (.intv (narrowInterp ty w))) ∧
    (¬(lo ≤ narrowInterp ty w ∧ narrowInterp ty w < hi) →
        marshal_arg m ty (w, l) = .error .tryFromError) ∧
    (∀ (pname : String) (rest : List (Param × RawArg)),
        ¬(lo ≤ narrowInterp ty w ∧ narrowInterp ty w < hi) →
        marshal_args m ((⟨pname, ty⟩, (w, l)) :: rest) = .error (pname, .tryFromError)) ∧
    (∀ (ctx : CallCtx) (f : Func) (args : List RawArg) (retSlots : List Nat)
        (loc : String) (e : GuestErr) (t : Ty),
        f.errType = some t →
        marshal_args m (f.params.zip args) = .error (loc, e) →
        (shim_call ctx f m args retSlots).outcome =
          Outcome.ok (some (ctx.encode (ctx.guestConv (.inFunc f.name loc e))))) := by
  have hflags : ∀ bits : Nat, ((toU32 w : Int) < (2 : Int) ^ bits ↔ toU32 w < 2 ^ bits) := by
    intro bits
    constructor
    · intro h
      exact_mod_cast h
    · intro h
      exact_mod_cast h
  refine ⟨?_, ?_, ?_, ?_⟩
  · intro hin
    cases ty with
    | builtin b =>
        cases b <;> simp_all [narrowBounds, narrowInterp, marshal_arg]
    | enumTy n =>
        simp_all [narrowBounds, narrowInterp, marshal_arg]
    | flagsTy bits =>
        simp only [narrowBounds, Option.some.injEq, Prod.mk.injEq] at hb
        obtain ⟨hlo, hhi⟩ := hb
        subst hhi
        simp only [narrowInterp] at hin
        have hlt : toU32 w < 2 ^ bits := (hflags bits).mp hin.2
        simp [marshal_arg, narrowInterp, hlt]
    | intTy bound =>
        simp_all [narrowBounds, narrowInterp, marshal_arg]
    | pointer => simp [narrowBounds] at hb
    | constPointer => simp [narrowBounds] at hb
    | structTy sz => simp [narrowBounds] at hb
    | unionTy sz => simp [narrowBounds] at hb
    | array => simp [narrowBounds] at hb
    | handle => simp [narrowBounds] at hb
  · intro hout
    cases ty with
    | builtin b =>
        cases b <;> simp_all [narrowBounds, narrowInterp, marshal_arg]
    | enumTy n =>
        simp_all [narrowBounds, narrowInterp, marshal_arg]
    | flagsTy bits =>
        simp only [narrowBounds, Option.some.injEq, Prod.mk.injEq] at hb
        obtain ⟨hlo, hhi⟩ := hb
        subst hhi
        subst hlo
        simp only [narrowInterp] at hout
        have hnot : ¬ toU32 w < 2 ^ bits := by
          intro hlt
          exact hout ⟨Int.natCast_nonneg _, (hflags bits).mpr hlt⟩
        simp [marshal_arg, hnot]
    | intTy bound =>
        simp_all [narrowBounds, narrowInterp, marshal_arg]
    | pointer => simp [narrowBounds] at hb
    | constPointer => simp [narrowBounds] at hb
    | structTy sz => simp [narrowBounds] at hb
    | unionTy sz => simp [narrowBounds] at hb
    | array => simp [narrowBounds] at hb
    | handle => simp [narrowBounds] at hb
  · intro pname rest hout
    have herr : marshal_arg m ty (w, l) = .error .tryFromError := by
      cases ty with
      | builtin b =>
          cases b <;> simp_all [narrowBounds, narrowInterp, marshal_arg]
      | enumTy n =>
          simp_all [narrowBounds, narrowInterp, marshal_arg]
      | flagsTy bits =>
          simp only [narrowBounds, Option.some.injEq, Prod.mk.injEq] at hb
          obtain ⟨hlo, hhi⟩ := hb
          subst hhi
          subst hlo
          simp only [narrowInterp] at hout
          have hnot : ¬ toU32 w < 2 ^ bits := by
            intro hlt
            exact hout ⟨Int.natCast_nonneg _, (hflags bits).mpr hlt⟩
          simp [marshal_arg, hnot]
      | intTy bound =>
          simp_all [narrowBounds, narrowInterp, marshal_arg]
      | pointer => simp [narrowBounds] at hb
      | constPointer => simp [narrowBounds] at hb
      | structTy sz => simp [narrowBounds] at hb
      | unionTy sz => simp [narrowBounds] at hb
      | array => simp [narrowBounds] at hb
      | handle => simp [narrowBounds] at hb
    simp [marshal_args, herr]
  · intro ctx f args retSlots loc e t het hm
    exact marshal_failure_routed ctx f m args retSlots loc e t het hm

/-- Witness for C3: the raw word 300 is rejected for a `u8` parameter, the
raw word `2^32 - 1` (the sign-extended wire pattern of `-1`) round-trips to
`-1` for an `s8` parameter, and an out-of-range narrow argument of a
function with a declared error type makes the shim return the encoded
validation error. -/
theorem narrow_marshal_checked_witness :
    marshal_arg m0 (.builtin .u8) (300, 0) = .error .tryFromError ∧
    marshal_arg m0 (.builtin .s8) (4294967295, 0) = .ok (.intv (-1)) ∧
    (shim_call ctxOk fNarrow m0 [(300, 0)] []).outcome = Outcome.ok (some 1) := by
  refine ⟨?_, ?_, ?_⟩
  · exact (narrow_marshal_checked (.builtin .u8) 0 (2 ^ 8) rfl 300 0 m0).2.1 (by decide)
  · have h := (narrow_marshal_checked (.builtin .s8) (-2 ^ 7) (2 ^ 7) rfl
      4294967295 0 m0).1 (by decide)
    have hv : narrowInterp (.builtin .s8) 4294967295 = -1 := by decide
    rw [hv] at h
    exact h
  · have hfail : marshal_args m0 (fNarrow.params.zip [(300, 0)]) =
        .error ("x", .tryFromError) := by
      exact (narrow_marshal_checked (.builtin .u8) 0 (2 ^ 8) rfl 300 0 m0).2.2.1
        "x" [] (by decide)
    exact (narrow_marshal_checked (.builtin .u8) 0 (2 ^ 8) rfl 300 0 m0).2.2.2
      ctxOk fNarrow [(300, 0)] [] "x" .tryFromError (.enumTy 3) rfl hfail

/-- **C9.** String- and array-shaped parameters marshal successfully for
every (pointer, length) pair of raw ABI words — including pairs exceeding
the memory region — because the shim constructs a lazy reference without
touching guest memory; pointer-, const-pointer- and handle-shaped
parameters are likewise infallible; hence a marshal failure can only
originate from an enum/flags/bounded-int, narrow-integer or
struct/union-shaped parameter. -/
theorem lazy_refs_never_fail
    (m : Mem) (p l w : Nat) :
    (marshal_arg m (.builtin .str) (p, l) = .ok (.slicev (toU32 p) (toU32 l))) ∧
    (marshal_arg m .array (p, l) = .ok (.slicev (toU32 p) (toU32 l))) ∧
    (marshal_arg m .pointer (w, l) = .ok (.ptrv (toU32 w))) ∧
    (marshal_arg m .constPointer (w, l) = .ok (.ptrv (toU32 w))) ∧
    (marshal_arg m .handle (w, l) = .ok (.intv (toU32 w : Int))) ∧
    (∀ (ty : Ty) (raw : RawArg) (e : GuestErr),
        marshal_arg m ty raw = .error e → fallibleShape ty = true) := by
  refine ⟨rfl, rfl, rfl, rfl, rfl, ?_⟩
  intro ty raw e herr
  cases ty with
  | builtin b =>
      cases b <;> first
        | rfl
        | simp [marshal_arg] at herr
  | enumTy n => rfl
  | flagsTy bits => rfl
  | intTy bound => rfl
  | pointer => simp [marshal_arg] at herr
  | constPointer => simp [marshal_arg] at herr
  | structTy sz => rfl
  | unionTy sz => rfl
  | array => simp [marshal_arg] at herr
  | handle => simp [marshal_arg] at herr

/-- Witness for C9: a (pointer, length) pair far beyond the empty memory
still marshals to a lazy slice (with the raw words reduced mod `2^32`), and
an observed marshal failure at a concrete enum input certifies a fallible
shape. -/
theorem lazy_refs_never_fail_witness :
    marshal_arg m0 (.builtin .str) (4294967301, 7) = .ok (.slicev 5 7) ∧
    fallibleShape (.enumTy 0) = true := by
  constructor
  · have h := (lazy_refs_never_fail m0 4294967301 7 0).1
    have hp : toU32 4294967301 = 5 := by decide
    have hl : toU32 7 = 7 := by decide
    rw [hp, hl] at h
    exact h
  · exact (lazy_refs_never_fail m0 0 0 0).2.2.2.2.2 (.enumTy 0) (0, 0) .tryFromError rfl

/-- Counterexample to C8 as stated: with a registered user-error conversion
that itself fails (returns `Err(trap)`), a handler domain error does not
produce a normal (non-trap) return — the shim returns `Err(trap)`
(`ret_err`'s `Err(e) => { return Err(e); }` arm, funcs.rs line 62). -/
theorem handler_error_conversion_counterexample :
    ctxConvTrap.handler [] = .error 5 ∧
    (shim_call ctxConvTrap fNoParams m0 [] []).outcome = Outcome.trapped 7 :=
  ⟨rfl, rfl⟩

/-- **C8 (amended).** For every function with a declared error type, whenever
the handler returns a domain error the generated shim converts it through
the registered user-error conversion when one exists (unchanged otherwise);
when the conversion yields an error-type value the shim returns that value's
ABI encoding as a normal (non-trap) return, and when the registered
conversion itself fails its failure is propagated as a trap. -/
theorem handler_error_conversion
    (ctx : CallCtx) (f : Func) (m : Mem) (args : List RawArg) (retSlots : List Nat)
    (vals : List Value) (e : Int) (t : Ty)
    (hnr : f.noreturn = false)
    (het : f.errType = some t)
    (hm : marshal_args m (f.params.zip args) = .ok vals)
    (hh : ctx.handler vals = .error e) :
    (ctx.userConv = none →
        (shim_call ctx f m args retSlots).outcome = Outcome.ok (some (ctx.encode e))) ∧
    (∀ c, ctx.userConv = some c →
        (∀ ev, c e = .ok ev →
          (shim_call ctx f m args retSlots).outcome = Outcome.ok (some (ctx.encode ev))) ∧
        (∀ tr, c e = .error tr →
          (shim_call ctx f m args retSlots).outcome = Outcome.trapped tr)) := by
  constructor
  · intro hu
    unfold shim_call
    rw [hm]
    simp [hnr, hh, het, hu]
  · intro c hu
    constructor
    · intro ev hc
      unfold shim_call
      rw [hm]
      simp [hnr, hh, het, hu, hc]
    · intro tr hc
      unfold shim_call
      rw [hm]
      simp [hnr, hh, het, hu, hc]

/-- Witness for C8 (amended): with no registered conversion the domain error
is encoded unchanged as a normal return; with a registered conversion that
fails, the shim traps. -/
theorem handler_error_conversion_witness :
    (shim_call ctxErrId fNoParams m0 [] []).outcome = Outcome.ok (some 5) ∧
    (shim_call ctxConvTrap fNoParams m0 [] []).outcome = Outcome.trapped 7 := by
  constructor
  · exact (handler_error_conversion ctxErrId fNoParams m0 [] [] [] 5 (.enumTy 3)
      rfl rfl rfl rfl).1 rfl
  · exact ((handler_error_conversion ctxConvTrap fNoParams m0 [] [] [] 5 (.enumTy 3)
      rfl rfl rfl rfl).2 (fun _ => .error 7) rfl).2 7 rfl

/-- **C5.** For a function with two extra results `a` and `b` (in that
declaration order) and a declared error type, when on the handler's success
path the write of `a` succeeds and the write of `b` fails, the shim returns
the declared error type's encoding of the validation error tagged with `b`'s
name and the `:result_ptr_mut` marker, while the memory written for `a`
remains mutated (writeback is not atomic on error). -/
theorem partial_writeback_error
    (ctx : CallCtx) (f : Func) (m : Mem) (args : List RawArg)
    (er : Param) (na nb : String) (aOff bOff : Nat) (va vb : Value) (vals : List Value)
    (hnr : f.noreturn = false)
    (hres : f.results = [er, ⟨na, .builtin .u32⟩, ⟨nb, .builtin .u32⟩])
    (hm : marshal_args m (f.params.zip args) = .ok vals)
    (hh : ctx.handler vals = .ok [va, vb])
    (ha32 : aOff < 2 ^ 32) (hb32 : bOff < 2 ^ 32)
    (haOk : aOff + 4 ≤ m.size)
    (hbBad : m.size < bOff + 4) :
    (shim_call ctx f m args [aOff, bOff]).outcome =
      Outcome.ok (some (ctx.encode (ctx.guestConv
        (.inFunc f.name (nb ++ ":result_ptr_mut") .ptrOutOfBounds)))) ∧
    (shim_call ctx f m args [aOff, bOff]).mem.data aOff = some va := by
  have hta : toU32 aOff = aOff := Nat.mod_eq_of_lt ha32
  have htb : toU32 bOff = bOff := Nat.mod_eq_of_lt hb32
  have haok : aOff + (Ty.builtin .u32).abiSize ≤ m.size := by
    simpa [Ty.abiSize] using haOk
  have hbnot : ¬ (bOff + (Ty.builtin .u32).abiSize ≤ m.size) := by
    simp only [Ty.abiSize]
    omega
  unfold shim_call
  rw [hm]
  simp only [hnr, Bool.false_eq_true, if_false, hh]
  simp [Func.extraResults, Func.errType, hres, hta, htb, marshal_rets_post,
    Mem.writeAt, haok, hbnot, errorHandlingOutcome]

/-- Witness for C5: on an 8-byte memory, writing `a` at offset 0 succeeds
and writing `b` at offset 100 fails; the call reports the encoded validation
error for `b` while `a`'s cell holds the written value. -/
theorem partial_writeback_error_witness :
    (shim_call ctxTwo fTwoResults m8 [] [0, 100]).outcome = Outcome.ok (some 21) ∧
    (shim_call ctxTwo fTwoResults m8 [] [0, 100]).mem.data 0 = some (.intv 1) := by
  have h := partial_writeback_error ctxTwo fTwoResults m8 [] ⟨"err", .enumTy 3⟩ "a" "b"
    0 100 (.intv 1) (.intv 2) [] rfl rfl rfl rfl (by decide) (by decide)
    (by decide) (by decide)
  exact ⟨h.1, h.2⟩

/-- Counterexample to C6 as stated: a call of a zero-parameter function in
which all (zero) arguments marshal successfully emits the argument-trace
event zero times, not exactly once — `log_marshalled_args` is generated only
for a non-empty parameter list (funcs.rs line 101). -/
theorem args_trace_zero_params_counterexample :
    marshal_args m0 (fNoParams.params.zip ([] : List RawArg)) = .ok [] ∧
    (shim_call ctxOk fNoParams m0 [] []).trace.count Event.argsTrace = 0 :=
  ⟨rfl, rfl⟩

/-- **C6 (amended).** For every call of a generated shim of a function with
at least one declared parameter, the argument-trace event is emitted exactly
once per call in which all arguments marshal successfully — after every
argument is bound (marshaling emits no events; only the pre-call pointer
constructions precede it) and immediately before the handler is invoked —
and it is never emitted if any argument marshal fails. -/
theorem args_trace_emitted_once
    (ctx : CallCtx) (f : Func) (m : Mem) (args : List RawArg) (retSlots : List Nat)
    (hp : f.params ≠ []) :
    (∀ vals, marshal_args m (f.params.zip args) = .ok vals →
        (shim_call ctx f m args retSlots).trace.count Event.argsTrace = 1 ∧
        ∃ pres rest, (shim_call ctx f m args retSlots).trace =
            pres ++ Event.argsTrace :: Event.invoke :: rest ∧
          ∀ ev ∈ pres, ∃ nm, ev = Event.preAlloc nm) ∧
    (∀ loc e, marshal_args m (f.params.zip args) = .error (loc, e) →
        (shim_call ctx f m args retSlots).trace.count Event.argsTrace = 0) := by
  have hat : argsTraceEvents f = [Event.argsTrace] := by
    have hpos : f.params.length > 0 := List.length_pos.mpr hp
    simp [argsTraceEvents, hpos]
  constructor
  · intro vals hm
    by_cases hnr : f.noreturn
    · have htr : (shim_call ctx f m args retSlots).trace =
          [Event.argsTrace, Event.invoke] := by
        unfold shim_call
        rw [hm]
        simp [hnr, hat]
      rw [htr]
      exact ⟨rfl, [], [], rfl, by simp⟩
    · obtain ⟨mid, htr, hmid⟩ := shim_call_trace_shape ctx f m args retSlots vals
        (by simpa using hnr) hm
      rw [hat] at htr
      have hprenotin : Event.argsTrace ∉
          ((f.extraResults.zip retSlots).map (fun rs => (rs.1, toU32 rs.2))).map
            (fun ro => Event.preAlloc ro.1.name) := by
        intro hmem
        rcases List.mem_map.mp hmem with ⟨x, _, hx⟩
        exact Event.noConfusion hx
      have hmidnotin : Event.argsTrace ∉ mid := by
        intro hmem
        rcases hmid _ hmem with h | h | h | ⟨nm, h⟩ <;> simp_all
      constructor
      · rw [htr, List.count_append, List.count_append,
          List.count_eq_zero.mpr hprenotin]
        simp [List.count_cons, List.count_eq_zero.mpr hmidnotin]
      · refine ⟨((f.extraResults.zip retSlots).map (fun rs => (rs.1, toU32 rs.2))).map
            (fun ro => Event.preAlloc ro.1.name), mid, ?_, ?_⟩
        · rw [htr]
          simp
        · intro ev hev
          rcases List.mem_map.mp hev with ⟨x, _, hx⟩
          exact ⟨x.1.name, hx.symm⟩
  · intro loc e hm
    have htr : (shim_call ctx f m args retSlots).trace = [] := by
      unfold shim_call
      rw [hm]
    rw [htr]
    rfl

/-- Witness for C6 (amended): a one-parameter function emits the
argument-trace event exactly once on a successful-marshal call and zero
times on a failed-marshal call. -/
theorem args_trace_emitted_once_witness :
    (shim_call ctxOk fNarrow m0 [(7, 0)] []).trace.count Event.argsTrace = 1 ∧
    (shim_call ctxOk fNarrow m0 [(400, 0)] []).trace.count Event.argsTrace = 0 := by
  constructor
  · exact ((args_trace_emitted_once ctxOk fNarrow m0 [(7, 0)] [] (by decide)).1
      [.intv 7] rfl).1
  · exact (args_trace_emitted_once ctxOk fNarrow m0 [(400, 0)] [] (by decide)).2
      "x" .tryFromError rfl

/-- **C4.** For every non-noreturn function with successful argument
marshaling: all output pointers of the extra results are constructed before
the handler is invoked, in declaration order; the post-call writes appear
only on the handler's success path; and on that path the writes follow the
extra-return-value trace event, in declaration order (a prefix of the
declared extra results, all of them when every write succeeds). -/
theorem result_writeback_ordering
    (ctx : CallCtx) (f : Func) (m : Mem) (args : List RawArg) (retSlots : List Nat)
    (vals : List Value)
    (hnr : f.noreturn = false)
    (hlen : f.extraResults.length ≤ retSlots.length)
    (hm : marshal_args m (f.params.zip args) = .ok vals) :
    (∃ rest, (shim_call ctx f m args retSlots).trace =
        f.extraResults.map (fun r => Event.preAlloc r.name)
          ++ argsTraceEvents f ++ Event.invoke :: rest) ∧
    (∀ e, ctx.handler vals = .error e →
        ∀ nm, Event.postWrite nm ∉ (shim_call ctx f m args retSlots).trace) ∧
    (∀ rvals, ctx.handler vals = .ok rvals → f.extraResults.length ≤ rvals.length →
        ∃ k ≤ f.extraResults.length, ∃ tail,
          (shim_call ctx f m args retSlots).trace =
            f.extraResults.map (fun r => Event.preAlloc r.name)
              ++ argsTraceEvents f
              ++ Event.invoke :: ((if f.results.length ≥ 2 then [Event.retTrace] else [])
              ++ (f.extraResults.take k).map (fun r => Event.postWrite r.name)
              ++ tail) ∧
          (writebackErr f m retSlots rvals = none → k = f.extraResults.length) ∧
          (∀ ev ∈ tail, ∀ nm, ev ≠ Event.postWrite nm)) := by
  refine ⟨?_, ?_, ?_⟩
  · obtain ⟨mid, htr, _⟩ := shim_call_trace_shape ctx f m args retSlots vals hnr hm
    refine ⟨mid, ?_⟩
    rw [htr, zip_pre_events f.extraResults retSlots hlen]
  · intro e hh nm
    unfold shim_call
    rw [hm]
    simp only [hnr, Bool.false_eq_true, if_false, hh]
    cases hET : f.errType with
    | none => simp [argsTraceEvents]
    | some t =>
        cases hu : ctx.userConv with
        | none => simp [argsTraceEvents]
        | some c => cases hc : c e <;> simp [hc, argsTraceEvents]
  · intro rvals hh hlenr
    unfold shim_call
    rw [hm]
    simp only [hnr, Bool.false_eq_true, if_false, hh]
    rcases hrec : marshal_rets_post m
        ((((f.extraResults.zip retSlots).map (fun rs => (rs.1, toU32 rs.2))).zip rvals).map
          (fun rv => (rv.1.1, rv.1.2, rv.2))) with ⟨evs, m2, werr⟩
    obtain ⟨k, hk, hevs, himp⟩ := marshal_rets_post_shape
      ((((f.extraResults.zip retSlots).map (fun rs => (rs.1, toU32 rs.2))).zip rvals).map
        (fun rv => (rv.1.1, rv.1.2, rv.2))) m
    rw [hrec] at hevs himp
    simp only at hevs himp
    have hlen3 := zip_triples_length f.extraResults retSlots rvals hlen hlenr
    have hnames := zip_triples_map_name f.extraResults retSlots rvals hlen hlenr
    have htake : evs = (f.extraResults.take k).map (fun r => Event.postWrite r.name) := by
      rw [hevs, List.map_take, hnames, ← List.map_take]
    have hkle : k ≤ f.extraResults.length := hlen3 ▸ hk
    cases werr with
    | some le =>
        refine ⟨k, hkle, [], ?_, ?_, by simp⟩
        · simp only [hrec]
          rw [htake, zip_pre_events f.extraResults retSlots hlen]
          simp
        · intro hwb
          unfold writebackErr at hwb
          rw [hrec] at hwb
          simp at hwb
    | none =>
        have hkeq : k = f.extraResults.length := by
          rw [← hlen3]
          exact himp rfl
        cases hET : f.errType with
        | some t =>
            refine ⟨k, hkle, [Event.successTrace], ?_, fun _ => hkeq, by simp⟩
            simp only [hrec]
            rw [htake, zip_pre_events f.extraResults retSlots hlen]
            simp
        | none =>
            refine ⟨k, hkle, [], ?_, fun _ => hkeq, by simp⟩
            simp only [hrec]
            rw [htake, zip_pre_events f.extraResults retSlots hlen]
            simp

/-- Witness for C4: on a concrete two-extra-result function whose handler
fails, no post-call write event appears in the trace. -/
theorem result_writeback_ordering_witness :
    Event.postWrite "a" ∉ (shim_call ctxErrId fTwoResults m8 [] [0, 4]).trace := by
  exact (result_writeback_ordering ctxErrId fTwoResults m8 [] [0, 4] []
    rfl (by decide) rfl).2.1 5 rfl "a"

end Wiggle
